import Mathlib

/-!
Shallow embedding of the stock-analytics-platform data pipeline
(packages/data-pipeline): the validation/cleaning engine with anomaly
detection (validators/validate_data.py), the retry-protected fetch
adapters (fetch_data.py and fetchers/fetch_yahoo.py), the batch fetch
loop, and the year-partitioned parquet storage
(storage/parquet_handler.py).

Modelling conventions:
* A polars DataFrame is a list of rows plus Boolean column-presence
  flags.  Numeric cells are `Option ℚ` (`none` is a polars null);
  floats are modelled by rationals.
* Timestamps are modelled as integers encoding dates as YYYYMMDD, so
  the polars `dt.year()` projection is division by 10000 and datetime
  order is integer order.
* A polars `filter` keeps a row exactly when its Boolean mask is true;
  a comparison involving a null cell yields a null mask, which drops
  the row, so each mask below returns `false` on `none` operands.
* `DataFrame.sort('timestamp')` is modelled by `List.insertionSort`
  on the timestamp key (a deterministic comparison sort).
* The anomaly test `|change - mean| > 3 * std` (with
  `std = sqrt variance ≥ 0`) is expressed by the equivalent
  square-free comparison `(change - mean)^2 > 9 * variance`, avoiding
  the irrational square root.
-/

namespace StockPipeline

/-- One row of a market-data table.  Fields other than `timestamp`
are nullable cells; a field is only meaningful when the surrounding
`DataFrame` says the corresponding column is present. -/
structure Row where
  timestamp : Int
  open_ : Option ℚ
  high : Option ℚ
  low : Option ℚ
  close : Option ℚ
  volume : Option ℚ
  adj_close : Option ℚ
  dividends : Option ℚ
  stock_splits : Option ℚ
  is_anomaly : Option Bool
deriving DecidableEq, Repr

/-- A polars DataFrame: rows plus column-presence flags.  The six
required columns and the three optional ones each get a flag; the
`is_anomaly` column is added by the anomaly detector. -/
structure DataFrame where
  rows : List Row
  hasTimestamp : Bool
  hasOpen : Bool
  hasHigh : Bool
  hasLow : Bool
  hasClose : Bool
  hasVolume : Bool
  hasAdjClose : Bool
  hasDividends : Bool
  hasStockSplits : Bool
  hasIsAnomaly : Bool
deriving DecidableEq, Repr

/-- Replace the `is_anomaly` cell of a row (`with_columns(...alias('is_anomaly'))`). -/
def setFlag (b : Option Bool) (r : Row) : Row :=
  { r with is_anomaly := b }

/-- Erase the `is_anomaly` cell: two rows with equal `stripFlag` hold
the same market data. -/
def stripFlag (r : Row) : Row :=
  { r with is_anomaly := none }

/-- Mask of `drop_nulls(subset=['open','high','low','close','volume'])`:
keep a row iff every critical cell is non-null. -/
def criticalNonNull (r : Row) : Bool :=
  r.open_.isSome && r.high.isSome && r.low.isSome && r.close.isSome && r.volume.isSome

/-- Mask of `pl.col(c) > 0` on a nullable cell: null compares to null,
which the filter drops. -/
def posMask (x : Option ℚ) : Bool :=
  match x with
  | some v => decide (0 < v)
  | none => false

/-- Mask of `pl.col('volume') >= 0`. -/
def volMask (r : Row) : Bool :=
  match r.volume with
  | some v => decide (0 ≤ v)
  | none => false

/-- Mask of `b <= a` on nullable cells (null makes the mask null, which drops). -/
def geMask (a b : Option ℚ) : Bool :=
  match a, b with
  | some x, some y => decide (y ≤ x)
  | _, _ => false

/-- Mask of the five-way OHLC relational filter of
`validate_and_clean_data`. -/
def ohlcMask (r : Row) : Bool :=
  geMask r.high r.low && geMask r.high r.open_ && geMask r.high r.close &&
    geMask r.open_ r.low && geMask r.close r.low

/-- Filter the rows of a frame by a Boolean mask. -/
def filterRows (p : Row → Bool) (df : DataFrame) : DataFrame :=
  { df with rows := df.rows.filter p }

/-- Timestamp order on rows, the key of `sort('timestamp')`. -/
def tsLe (a b : Row) : Prop :=
  a.timestamp ≤ b.timestamp

instance : DecidableRel tsLe := fun a b => Int.decLe a.timestamp b.timestamp

instance : IsTotal Row tsLe := ⟨fun a b => Int.le_total a.timestamp b.timestamp⟩

instance : IsTrans Row tsLe := ⟨fun _ _ _ hab hbc => le_trans hab hbc⟩

/-- Model of `data.sort('timestamp')`. -/
def sortByTimestamp (df : DataFrame) : DataFrame :=
  { df with rows := List.insertionSort tsLe df.rows }

/-- Polars `pct_change()` with the most-recent non-null previous value
as base: the first value (and any value with no non-null predecessor)
is null, a null cell stays null, and otherwise the change is
`current / previous - 1`. -/
def pctChangeAux (prev : Option ℚ) : List (Option ℚ) → List (Option ℚ)
  | [] => []
  | x :: xs =>
    match x with
    | none => none :: pctChangeAux prev xs
    | some v => prev.map (fun p => v / p - 1) :: pctChangeAux (some v) xs

/-- Model of `pl.col('close').pct_change()`. -/
def pctChange (xs : List (Option ℚ)) : List (Option ℚ) :=
  pctChangeAux none xs

/-- The non-null values of a nullable column, in order. -/
def nonNulls (xs : List (Option ℚ)) : List ℚ :=
  xs.filterMap id

/-- Polars `mean()`: the mean of the non-null values, null when there are none. -/
def meanOpt (xs : List (Option ℚ)) : Option ℚ :=
  let v := nonNulls xs
  if v.length = 0 then none else some (v.sum / (v.length : ℚ))

/-- Polars `std()` squared (sample variance, `ddof = 1`): null when
fewer than two non-null values.  `std()` itself is null exactly when
this is. -/
def varOpt (xs : List (Option ℚ)) : Option ℚ :=
  let v := nonNulls xs
  if v.length < 2 then none
  else some ((v.map (fun x => (x - v.sum / (v.length : ℚ)) ^ 2)).sum / ((v.length : ℚ) - 1))

/-- The anomaly mask for one price change:
`(pl.col('price_change') - mean).abs() > 3 * std`, written with both
sides squared (both are nonnegative, `std = sqrt variance`), so a null
change yields a null flag. -/
def anomalyFlag (m v : ℚ) (pc : Option ℚ) : Option Bool :=
  pc.map (fun x => decide (9 * v < (x - m) ^ 2))

/-- Model of `detect_and_flag_anomalies` (validators/validate_data.py):
fewer than 10 rows, or a null std/mean of the percentage-change
column, flags every row `False`; otherwise each row gets the
three-sigma mask of its `close` percentage change (null for the first
row, whose change is undefined).  The temporary `price_change` column
is added and dropped again, so it is not materialised here. -/
def detect_and_flag_anomalies (df : DataFrame) : DataFrame :=
  if df.rows.length < 10 then
    { df with rows := df.rows.map (setFlag (some false)), hasIsAnomaly := true }
  else
    let pcs := pctChange (df.rows.map Row.close)
    match varOpt pcs, meanOpt pcs with
    | some v, some m =>
      { df with
        rows := (df.rows.zip pcs).map (fun p => setFlag (anomalyFlag m v p.2) p.1),
        hasIsAnomaly := true }
    | _, _ =>
      { df with rows := df.rows.map (setFlag (some false)), hasIsAnomaly := true }

/-- Model of `validate_and_clean_data` (validators/validate_data.py):
drop null criticals, drop non-positive prices column by column (the
`adj_close` filter runs only when that column is present), drop
negative volume, drop OHLC-inconsistent rows, annotate anomalies,
sort by timestamp. -/
def validate_and_clean_data (df : DataFrame) : DataFrame :=
  let d0 := filterRows criticalNonNull df
  let d1 := filterRows (fun r => posMask r.open_) d0
  let d2 := filterRows (fun r => posMask r.high) d1
  let d3 := filterRows (fun r => posMask r.low) d2
  let d4 := filterRows (fun r => posMask r.close) d3
  let d5 := if df.hasAdjClose then filterRows (fun r => posMask r.adj_close) d4 else d4
  let d6 := filterRows volMask d5
  let d7 := filterRows ohlcMask d6
  sortByTimestamp (detect_and_flag_anomalies d7)

/-! ### Fetch adapters with retry (fetch_data.py and fetchers/fetch_yahoo.py) -/

/-- One attempt of `ticker.history(...)`: either it raises an
exception, or it returns a history table (possibly empty; already
renamed to the canonical column names, since the rename loop is pure
string bookkeeping). -/
inductive FetchAttempt where
  | raise : FetchAttempt
  | hist : DataFrame → FetchAttempt
deriving DecidableEq

/-- The required-column check after renaming: true when any of
`timestamp, open, high, low, close, volume` is missing. -/
def missingRequired (t : DataFrame) : Bool :=
  !(t.hasTimestamp && t.hasOpen && t.hasHigh && t.hasLow && t.hasClose && t.hasVolume)

/-- Back-fill of the optional columns in fetch_data.py: a missing
`adj_close` column is set to `close` cell by cell; missing `dividends`
and `stock_splits` columns are set to the non-null constant `0.0`. -/
def backfillOptional (t : DataFrame) : DataFrame :=
  let t1 :=
    if t.hasAdjClose then t
    else
      { t with
        rows := t.rows.map (fun r => { r with adj_close := r.close })
        hasAdjClose := true }
  let t2 :=
    if t1.hasDividends then t1
    else
      { t1 with
        rows := t1.rows.map (fun r => { r with dividends := some 0 })
        hasDividends := true }
  if t2.hasStockSplits then t2
  else
    { t2 with
      rows := t2.rows.map (fun r => { r with stock_splits := some 0 })
      hasStockSplits := true }

/-- Loop body of `_fetch_single_symbol_with_retry` in fetch_data.py,
driven by an oracle giving each attempt's outcome.  `attempt` is the
current 0-based attempt index, `fuel` the number of attempts still
allowed (so `fuel ≥ 2` means this is not the last attempt).  Returns
the result together with the list of back-off sleeps performed, in
seconds.  An empty history or a missing required column returns
`None` at once; an exception sleeps `retry_delay * 2 ^ attempt` and
retries unless this was the last attempt. -/
def fetchFDAux (oracle : Nat → FetchAttempt) (delay : ℚ) :
    Nat → Nat → Option DataFrame × List ℚ
  | _, 0 => (none, [])
  | attempt, fuel + 1 =>
    match oracle attempt with
    | .raise =>
      if fuel = 0 then (none, [])
      else
        let p := fetchFDAux oracle delay (attempt + 1) fuel
        (p.1, delay * 2 ^ attempt :: p.2)
    | .hist t =>
      if t.rows.isEmpty then (none, [])
      else if missingRequired t then (none, [])
      else (some (backfillOptional t), [])

/-- Model of `_fetch_single_symbol_with_retry` in fetch_data.py. -/
def fetchSingleFD (oracle : Nat → FetchAttempt) (maxRetries : Nat) (delay : ℚ) :
    Option DataFrame × List ℚ :=
  fetchFDAux oracle delay 0 maxRetries

/-- Loop body of `_fetch_single_symbol_with_retry` in
fetchers/fetch_yahoo.py.  It differs from the fetch_data.py version:
an empty history sleeps the constant `retry_delay` and retries
(unless last attempt); a missing required column still aborts; the
success path returns the normalized table with no optional-column
back-fill (the timestamp cast and the added `symbol` column carry no
information modelled here). -/
def fetchFYAux (oracle : Nat → FetchAttempt) (delay : ℚ) :
    Nat → Nat → Option DataFrame × List ℚ
  | _, 0 => (none, [])
  | attempt, fuel + 1 =>
    match oracle attempt with
    | .raise =>
      if fuel = 0 then (none, [])
      else
        let p := fetchFYAux oracle delay (attempt + 1) fuel
        (p.1, delay * 2 ^ attempt :: p.2)
    | .hist t =>
      if t.rows.isEmpty then
        if fuel = 0 then (none, [])
        else
          let p := fetchFYAux oracle delay (attempt + 1) fuel
          (p.1, delay :: p.2)
      else if missingRequired t then (none, [])
      else (some t, [])

/-- Model of `_fetch_single_symbol_with_retry` in fetchers/fetch_yahoo.py. -/
def fetchSingleFY (oracle : Nat → FetchAttempt) (maxRetries : Nat) (delay : ℚ) :
    Option DataFrame × List ℚ :=
  fetchFYAux oracle delay 0 maxRetries

/-! ### Batch fetch loop (fetchers/fetch_yahoo.py `fetch_historical_data`) -/

/-- The per-symbol outcome of the single-symbol fetch as seen by the
batch loop: the fetch (or anything inside the `try`) raises, or it
returns `None` / a table. -/
inductive SymbolFetch where
  | raises : SymbolFetch
  | result : Option DataFrame → SymbolFetch
deriving DecidableEq

/-- Per-symbol body of the batch loop: a raised exception or an
absent/empty result contributes nothing; otherwise the data is
validated when `validate_data` is set, and an empty post-cleaning
table also contributes nothing (parquet saving has no effect on the
returned mapping). -/
def symbolResult (oracle : String → SymbolFetch) (validateData : Bool) (s : String) :
    Option DataFrame :=
  match oracle s with
  | .raises => none
  | .result none => none
  | .result (some d) =>
    if d.rows.isEmpty then none
    else
      let d1 := if validateData then validate_and_clean_data d else d
      if d1.rows.isEmpty then none else some d1

/-- Model of `fetch_historical_data` (fetchers/fetch_yahoo.py): loop
over each asset type's symbols, skipping failed symbols and
accumulating `symbol ↦ data` entries in order. -/
def fetch_historical_data (assetSymbols : List (String × List String))
    (oracle : String → SymbolFetch) (validateData : Bool) :
    List (String × DataFrame) :=
  ((assetSymbols.map Prod.snd).flatten).filterMap
    (fun s => (symbolResult oracle validateData s).map (fun d => (s, d)))

/-! ### Partitioned parquet storage (storage/parquet_handler.py) -/

/-- Polars `dt.year()` under the YYYYMMDD integer encoding of timestamps. -/
def tsYear (t : Int) : Int :=
  t / 10000

/-- Model of `save_data_to_parquet`: one file per distinct calendar
year of the data, in ascending year order, named
`<symbol>_<year>.parquet` (written under `output_dir/<symbol>/`),
holding exactly that year's rows. -/
def save_data_to_parquet (data : DataFrame) (symbol : String) :
    List (String × DataFrame) :=
  let years := List.insertionSort (· ≤ ·) ((data.rows.map (fun r => tsYear r.timestamp)).dedup)
  years.map (fun y =>
    (symbol ++ "_" ++ toString y ++ ".parquet",
      { data with rows := data.rows.filter (fun r => decide (tsYear r.timestamp = y)) }))

/-- Model of `load_data_from_parquet` with `year=None`: glob the
symbol's partition files; `None` when there are none, otherwise the
concatenation of every file's rows sorted ascending by timestamp. -/
def load_data_from_parquet (files : List (String × DataFrame)) : Option (List Row) :=
  if files.isEmpty then none
  else some (List.insertionSort tsLe ((files.map (fun f => f.2.rows)).flatten))

/-! ### Basic lemmas about the anomaly detector -/

theorem pctChangeAux_length (xs : List (Option ℚ)) :
    ∀ prev, (pctChangeAux prev xs).length = xs.length := by
  induction xs with
  | nil => intro prev; rfl
  | cons x xs ih =>
    intro prev
    cases x with
    | none => simp [pctChangeAux, ih]
    | some v => simp [pctChangeAux, ih]

theorem pctChange_length (xs : List (Option ℚ)) : (pctChange xs).length = xs.length :=
  pctChangeAux_length xs none

theorem stripFlag_setFlag (b : Option Bool) (r : Row) :
    stripFlag (setFlag b r) = stripFlag r := rfl

theorem zip_setFlag_strip (g : Option ℚ → Option Bool) :
    ∀ (rows : List Row) (pcs : List (Option ℚ)), rows.length ≤ pcs.length →
      ((rows.zip pcs).map (fun p => setFlag (g p.2) p.1)).map stripFlag =
        rows.map stripFlag := by
  intro rows
  induction rows with
  | nil => intro pcs _; rfl
  | cons r rows ih =>
    intro pcs hlen
    cases pcs with
    | nil => simp at hlen
    | cons pc pcs =>
      simp only [List.zip_cons_cons, List.map_cons, stripFlag_setFlag]
      rw [ih pcs (by simpa using hlen)]

/-- The detector only rewrites the `is_anomaly` column: the market
data of every row, and the row order, are unchanged. -/
theorem detect_strip (df : DataFrame) :
    (detect_and_flag_anomalies df).rows.map stripFlag = df.rows.map stripFlag := by
  unfold detect_and_flag_anomalies
  split
  · simp [stripFlag_setFlag, List.map_map, Function.comp]
  · dsimp only
    split
    · exact zip_setFlag_strip _ df.rows _ (by simp [pctChange_length])
    · simp [stripFlag_setFlag, List.map_map, Function.comp]

/-- Every row of the detector output is a row of the input with its
`is_anomaly` cell rewritten. -/
theorem mem_detect (df : DataFrame) (r : Row) (hr : r ∈ (detect_and_flag_anomalies df).rows) :
    ∃ b r0, r0 ∈ df.rows ∧ r = setFlag b r0 := by
  unfold detect_and_flag_anomalies at hr
  split at hr
  · simp only [List.mem_map] at hr
    obtain ⟨r0, hr0, hEq⟩ := hr
    exact ⟨some false, r0, hr0, hEq.symm⟩
  · dsimp only at hr
    split at hr
    · simp only [List.mem_map] at hr
      obtain ⟨⟨r0, pc⟩, hp, hEq⟩ := hr
      exact ⟨_, r0, (List.of_mem_zip hp).1, hEq.symm⟩
    · simp only [List.mem_map] at hr
      obtain ⟨r0, hr0, hEq⟩ := hr
      exact ⟨some false, r0, hr0, hEq.symm⟩

/-- The percentage change of the first row is always null: it has no
predecessor. -/
theorem pctChange_head (x : Option ℚ) (xs : List (Option ℚ)) :
    ∃ t, pctChange (x :: xs) = none :: t := by
  cases x with
  | none => exact ⟨_, rfl⟩
  | some v => exact ⟨_, rfl⟩

theorem pctChangeAux_const (c : ℚ) (hc : c ≠ 0) :
    ∀ n, pctChangeAux (some c) (List.replicate n (some c)) = List.replicate n (some 0) := by
  intro n
  induction n with
  | zero => rfl
  | succ n ih =>
    simp only [List.replicate_succ, pctChangeAux, Option.map_some', div_self hc]
    rw [ih]
    norm_num

theorem pctChange_const (c : ℚ) (hc : c ≠ 0) (n : ℕ) :
    pctChange (List.replicate (n + 1) (some c)) = none :: List.replicate n (some 0) := by
  simp only [List.replicate_succ, pctChange, pctChangeAux, Option.map_none']
  rw [pctChangeAux_const c hc]

theorem nonNulls_zeros (n : ℕ) :
    nonNulls (none :: List.replicate n (some (0 : ℚ))) = List.replicate n 0 := by
  simp only [nonNulls, List.filterMap_cons, id]
  induction n with
  | zero => rfl
  | succ n ih =>
    simp only [List.replicate_succ, List.filterMap_cons, id] at ih ⊢
    rw [ih]

theorem meanOpt_zeros (n : ℕ) (hn : n ≠ 0) :
    meanOpt (none :: List.replicate n (some (0 : ℚ))) = some 0 := by
  simp only [meanOpt, nonNulls_zeros, List.length_replicate, if_neg hn]
  simp [List.sum_replicate]

theorem varOpt_zeros (n : ℕ) (hn : 2 ≤ n) :
    varOpt (none :: List.replicate n (some (0 : ℚ))) = some 0 := by
  have hlt : ¬n < 2 := by omega
  simp only [varOpt, nonNulls_zeros, List.length_replicate, if_neg hlt]
  simp [List.sum_replicate, List.map_replicate]

theorem setFlag_flag (b : Option Bool) (r : Row) : (setFlag b r).is_anomaly = b := rfl

theorem zip_const_flags (m v : ℚ) (hmv : anomalyFlag m v (some 0) = some false) :
    ∀ (rows : List Row) (n : ℕ), rows.length = n →
      ((rows.zip (List.replicate n (some (0 : ℚ)))).map
          (fun p => setFlag (anomalyFlag m v p.2) p.1)).map Row.is_anomaly =
        List.replicate n (some false) := by
  intro rows
  induction rows with
  | nil =>
    intro n hn
    simp [← hn]
  | cons r rows ih =>
    intro n hn
    cases n with
    | zero => simp at hn
    | succ n =>
      simp only [List.replicate_succ, List.zip_cons_cons, List.map_cons, setFlag_flag, hmv]
      rw [ih n (by simpa using hn)]

/-- C2, corrected form.  In a series of at least 10 rows the first
row's period-over-period change is undefined (null); if the
percentage-change statistics are defined the first row's `is_anomaly`
cell is therefore null, and in the degenerate branches it is `False`
— in no case is it `True`, so the first row is never counted as
anomalous. -/
theorem first_row_flag_not_true (df : DataFrame) (hlen : 10 ≤ df.rows.length)
    (r : Row) (hr : (detect_and_flag_anomalies df).rows.head? = some r) :
    r.is_anomaly = none ∨ r.is_anomaly = some false := by
  unfold detect_and_flag_anomalies at hr
  rw [if_neg (by omega)] at hr
  dsimp only at hr
  cases hrows : df.rows with
  | nil => simp [hrows] at hlen
  | cons r0 rest =>
    rw [hrows] at hr
    obtain ⟨t, ht⟩ := pctChange_head r0.close (rest.map Row.close)
    simp only [List.map_cons, ht] at hr
    split at hr
    · simp only [List.zip_cons_cons, List.map_cons, List.head?_cons,
        Option.some.injEq] at hr
      subst hr
      left
      rfl
    · simp only [List.map_cons, List.head?_cons, Option.some.injEq] at hr
      subst hr
      right
      rfl

/-- Witness for `first_row_flag_not_true` at a concrete 10-row frame. -/
def wRow (ts : Int) (c : ℚ) : Row :=
  { timestamp := ts, open_ := some c, high := some c, low := some c, close := some c,
    volume := some 100, adj_close := none, dividends := none, stock_splits := none,
    is_anomaly := none }

def wFrame (rows : List Row) : DataFrame :=
  { rows := rows
    hasTimestamp := true, hasOpen := true, hasHigh := true, hasLow := true
    hasClose := true, hasVolume := true, hasAdjClose := false
    hasDividends := false, hasStockSplits := false, hasIsAnomaly := false }

def constDF : DataFrame :=
  wFrame [wRow 20220101 5, wRow 20220102 5, wRow 20220103 5, wRow 20220104 5,
    wRow 20220105 5, wRow 20220106 5, wRow 20220107 5, wRow 20220108 5,
    wRow 20220109 5, wRow 20220110 5]

theorem first_row_flag_not_true_witness :
    10 ≤ constDF.rows.length ∧
      ∀ r, (detect_and_flag_anomalies constDF).rows.head? = some r →
        r.is_anomaly = none ∨ r.is_anomaly = some false :=
  ⟨by decide, fun r hr => first_row_flag_not_true constDF (by decide) r hr⟩

/-- C3, corrected form.  On a constant-price series of at least 10
rows the percentage-change column is a null followed by zeros, its
mean and sample variance are both defined and zero, and the detector
flags the first row null (undefined change) and every later row
`False`. -/
theorem const_close_flags (df : DataFrame) (c : ℚ) (hc : 0 < c)
    (hlen : 10 ≤ df.rows.length) (hconst : ∀ r ∈ df.rows, r.close = some c) :
    (detect_and_flag_anomalies df).rows.map Row.is_anomaly =
      none :: List.replicate (df.rows.length - 1) (some false) := by
  have hmap : df.rows.map Row.close = List.replicate df.rows.length (some c) := by
    rw [List.eq_replicate_iff]
    refine ⟨by simp, ?_⟩
    intro b hb
    obtain ⟨r, hr, hrb⟩ := List.mem_map.1 hb
    rw [← hrb]
    exact hconst r hr
  obtain ⟨r0, rest, hrows⟩ : ∃ r0 rest, df.rows = r0 :: rest := by
    cases h : df.rows with
    | nil => rw [h] at hlen; simp at hlen
    | cons a l => exact ⟨a, l, rfl⟩
  have hlen1 : df.rows.length = rest.length + 1 := by rw [hrows]; rfl
  have hpcs : pctChange (df.rows.map Row.close) = none :: List.replicate rest.length (some 0) := by
    rw [hmap, hlen1, pctChange_const c (ne_of_gt hc)]
  have hrest : 9 ≤ rest.length := by omega
  have hvar : varOpt (pctChange (df.rows.map Row.close)) = some 0 := by
    rw [hpcs]; exact varOpt_zeros rest.length (by omega)
  have hmean : meanOpt (pctChange (df.rows.map Row.close)) = some 0 := by
    rw [hpcs]; exact meanOpt_zeros rest.length (by omega)
  unfold detect_and_flag_anomalies
  rw [if_neg (by omega)]
  dsimp only
  rw [hvar, hmean]
  dsimp only
  rw [hpcs, hrows]
  simp only [List.zip_cons_cons, List.map_cons, setFlag_flag, List.length_cons,
    Nat.add_sub_cancel, List.cons.injEq]
  exact ⟨rfl, zip_const_flags 0 0 (by norm_num [anomalyFlag]) rest rest.length rfl⟩

def const12DF : DataFrame :=
  wFrame [wRow 20220101 4, wRow 20220102 4, wRow 20220103 4, wRow 20220104 4,
    wRow 20220105 4, wRow 20220106 4, wRow 20220107 4, wRow 20220108 4,
    wRow 20220109 4, wRow 20220110 4, wRow 20220111 4, wRow 20220112 4]

theorem const_close_flags_witness :
    0 < (4 : ℚ) ∧ 10 ≤ const12DF.rows.length ∧
      (detect_and_flag_anomalies const12DF).rows.map Row.is_anomaly =
        none :: List.replicate (const12DF.rows.length - 1) (some false) :=
  ⟨by norm_num, by decide,
    const_close_flags const12DF 4 (by norm_num) (by decide)
      (by intro r hr; fin_cases hr <;> rfl)⟩

/-- C2 counterexample: a 10-row series (constant close, so the
percentage-change statistics are defined) whose first `is_anomaly`
cell is null — not `False` as claimed. -/
theorem first_row_flag_false_counterexample :
    10 ≤ constDF.rows.length ∧
      ((detect_and_flag_anomalies constDF).rows.map Row.is_anomaly).head? = some none := by
  refine ⟨by decide, ?_⟩
  norm_num [constDF, wFrame, wRow, detect_and_flag_anomalies, pctChange, pctChangeAux,
    varOpt, meanOpt, nonNulls, anomalyFlag, setFlag, List.zip, List.zipWith,
    List.filterMap, List.sum_cons]

/-- C3 counterexample: a 12-row constant-price series for which the
first row's `is_anomaly` cell is null, so not every row is flagged
`False`. -/
theorem const_series_counterexample :
    (∀ r ∈ const12DF.rows, r.close = some 4) ∧ 10 ≤ const12DF.rows.length ∧
      ((detect_and_flag_anomalies const12DF).rows.map Row.is_anomaly).head? = some none := by
  refine ⟨by intro r hr; fin_cases hr <;> rfl, by decide, ?_⟩
  norm_num [const12DF, wFrame, wRow, detect_and_flag_anomalies, pctChange, pctChangeAux,
    varOpt, meanOpt, nonNulls, anomalyFlag, setFlag, List.zip, List.zipWith,
    List.filterMap, List.sum_cons]

/-! ### Row-invariant lemmas for the validation engine -/

/-- The conjunction of every row mask the cleaning stages apply
(the `adj_close` mask is demanded only when that column is present). -/
def allMasks (hasAdj : Bool) (r : Row) : Bool :=
  criticalNonNull r && posMask r.open_ && posMask r.high && posMask r.low &&
    posMask r.close && (!hasAdj || posMask r.adj_close) && volMask r && ohlcMask r

theorem allMasks_setFlag (hasAdj : Bool) (b : Option Bool) (r : Row) :
    allMasks hasAdj (setFlag b r) = allMasks hasAdj r := rfl

theorem mem_filterRows {p : Row → Bool} {df : DataFrame} {r : Row} :
    r ∈ (filterRows p df).rows ↔ r ∈ df.rows ∧ p r = true := by
  simp [filterRows, List.mem_filter]

/-- Every row of the cleaned output satisfies every mask, and its
market data is the market data of an input row. -/
theorem mem_validate (df : DataFrame) (r : Row)
    (hr : r ∈ (validate_and_clean_data df).rows) :
    allMasks df.hasAdjClose r = true ∧ stripFlag r ∈ df.rows.map stripFlag := by
  unfold validate_and_clean_data at hr
  dsimp only at hr
  simp only [sortByTimestamp, List.mem_insertionSort] at hr
  obtain ⟨b, r0, hr0, rfl⟩ := mem_detect _ r hr
  rw [mem_filterRows] at hr0
  obtain ⟨hr0, hOhlc⟩ := hr0
  rw [mem_filterRows] at hr0
  obtain ⟨hr0, hVol⟩ := hr0
  have hAdjStep : r0 ∈ (filterRows (fun r => posMask r.close)
      (filterRows (fun r => posMask r.low) (filterRows (fun r => posMask r.high)
        (filterRows (fun r => posMask r.open_) (filterRows criticalNonNull df))))).rows ∧
      (df.hasAdjClose = true → posMask r0.adj_close = true) := by
    by_cases h : df.hasAdjClose = true
    · rw [if_pos h, mem_filterRows] at hr0
      exact ⟨hr0.1, fun _ => hr0.2⟩
    · rw [if_neg h] at hr0
      exact ⟨hr0, fun hc => absurd hc h⟩
  obtain ⟨hr0, hAdj⟩ := hAdjStep
  rw [mem_filterRows] at hr0
  obtain ⟨hr0, hClose⟩ := hr0
  rw [mem_filterRows] at hr0
  obtain ⟨hr0, hLow⟩ := hr0
  rw [mem_filterRows] at hr0
  obtain ⟨hr0, hHigh⟩ := hr0
  rw [mem_filterRows] at hr0
  obtain ⟨hr0, hOpen⟩ := hr0
  rw [mem_filterRows] at hr0
  obtain ⟨hr0, hCrit⟩ := hr0
  constructor
  · rw [allMasks_setFlag]
    unfold allMasks
    cases hA : df.hasAdjClose with
    | false => simp [hCrit, hOpen, hHigh, hLow, hClose, hVol, hOhlc]
    | true => simp [hCrit, hOpen, hHigh, hLow, hClose, hVol, hOhlc, hAdj hA]
  · rw [stripFlag_setFlag]
    exact List.mem_map_of_mem stripFlag hr0

theorem posMask_iff (x : Option ℚ) : posMask x = true ↔ ∃ v, x = some v ∧ 0 < v := by
  cases x <;> simp [posMask]

theorem volMask_iff (r : Row) : volMask r = true ↔ ∃ v, r.volume = some v ∧ 0 ≤ v := by
  unfold volMask
  cases r.volume <;> simp

theorem geMask_iff (a b : Option ℚ) :
    geMask a b = true ↔ ∃ x y, a = some x ∧ b = some y ∧ y ≤ x := by
  cases a <;> cases b <;> simp [geMask]

/-- The Data Model row invariants of §3 of the spec, as demanded by
claim C1. -/
def ValidRow (hasAdj : Bool) (r : Row) : Prop :=
  ∃ o hi lo c v, r.open_ = some o ∧ r.high = some hi ∧ r.low = some lo ∧
    r.close = some c ∧ r.volume = some v ∧
    0 < o ∧ 0 < hi ∧ 0 < lo ∧ 0 < c ∧ 0 ≤ v ∧
    lo ≤ hi ∧ o ≤ hi ∧ c ≤ hi ∧ lo ≤ o ∧ lo ≤ c ∧
    (hasAdj = true → ∃ a, r.adj_close = some a ∧ 0 < a)

theorem allMasks_validRow (hasAdj : Bool) (r : Row)
    (h : allMasks hasAdj r = true) : ValidRow hasAdj r := by
  unfold allMasks at h
  simp only [Bool.and_eq_true] at h
  obtain ⟨⟨⟨⟨⟨⟨⟨_, hOpen⟩, hHigh⟩, hLow⟩, hClose⟩, hAdj⟩, hVol⟩, hOhlc⟩ := h
  obtain ⟨o, hoEq, hoPos⟩ := (posMask_iff _).1 hOpen
  obtain ⟨hi, hhEq, hhPos⟩ := (posMask_iff _).1 hHigh
  obtain ⟨lo, hlEq, hlPos⟩ := (posMask_iff _).1 hLow
  obtain ⟨c, hcEq, hcPos⟩ := (posMask_iff _).1 hClose
  obtain ⟨v, hvEq, hvNonneg⟩ := (volMask_iff _).1 hVol
  unfold ohlcMask at hOhlc
  simp only [Bool.and_eq_true] at hOhlc
  obtain ⟨⟨⟨⟨g1, g2⟩, g3⟩, g4⟩, g5⟩ := hOhlc
  obtain ⟨x1, y1, hx1, hy1, hle1⟩ := (geMask_iff _ _).1 g1
  obtain ⟨x2, y2, hx2, hy2, hle2⟩ := (geMask_iff _ _).1 g2
  obtain ⟨x3, y3, hx3, hy3, hle3⟩ := (geMask_iff _ _).1 g3
  obtain ⟨x4, y4, hx4, hy4, hle4⟩ := (geMask_iff _ _).1 g4
  obtain ⟨x5, y5, hx5, hy5, hle5⟩ := (geMask_iff _ _).1 g5
  rw [hhEq] at hx1 hx2 hx3
  rw [hlEq] at hy1 hy4 hy5
  rw [hoEq] at hy2 hx4
  rw [hcEq] at hy3 hx5
  cases Option.some.inj hx1
  cases Option.some.inj hx2
  cases Option.some.inj hx3
  cases Option.some.inj hx4
  cases Option.some.inj hx5
  cases Option.some.inj hy1
  cases Option.some.inj hy2
  cases Option.some.inj hy3
  cases Option.some.inj hy4
  cases Option.some.inj hy5
  refine ⟨o, hi, lo, c, v, hoEq, hhEq, hlEq, hcEq, hvEq,
    hoPos, hhPos, hlPos, hcPos, hvNonneg, hle1, hle2, hle3, hle4, hle5, ?_⟩
  intro hA
  obtain ⟨a, haEq, haPos⟩ := (posMask_iff _).1 (by
    cases hA' : hasAdj
    · rw [hA'] at hA; cases hA
    · rw [hA'] at hAdj; simpa using hAdj)
  exact ⟨a, haEq, haPos⟩

/-- C1 (confirmed).  Every row of the output of
`validate_and_clean_data` has non-null positive `open`, `high`,
`low`, `close` (and positive `adj_close` when that column is
present), non-null non-negative `volume`, satisfies the five OHLC
inequalities, and its market data (all cells except the added
`is_anomaly` flag) is the market data of an input row: rows are
dropped, never repaired. -/
theorem validate_row_invariants (df : DataFrame) (r : Row)
    (hr : r ∈ (validate_and_clean_data df).rows) :
    ValidRow df.hasAdjClose r ∧ stripFlag r ∈ df.rows.map stripFlag := by
  obtain ⟨hm, hmem⟩ := mem_validate df r hr
  exact ⟨allMasks_validRow _ r hm, hmem⟩

/-- C9 (confirmed).  The output of the validation engine is sorted
ascending by timestamp: consecutive rows have non-decreasing
timestamps. -/
theorem validate_output_sorted (df : DataFrame) :
    List.Chain' (fun a b => a.timestamp ≤ b.timestamp) (validate_and_clean_data df).rows := by
  have h : List.Sorted tsLe (validate_and_clean_data df).rows := by
    unfold validate_and_clean_data
    dsimp only
    exact List.sorted_insertionSort tsLe _
  exact List.Pairwise.chain' h

def oneRowDF : DataFrame :=
  wFrame [wRow 20230501 7]

theorem validate_row_invariants_witness :
    setFlag (some false) (wRow 20230501 7) ∈ (validate_and_clean_data oneRowDF).rows ∧
      (ValidRow oneRowDF.hasAdjClose (setFlag (some false) (wRow 20230501 7)) ∧
        stripFlag (setFlag (some false) (wRow 20230501 7)) ∈
          oneRowDF.rows.map stripFlag) :=
  ⟨by decide, validate_row_invariants oneRowDF _ (by decide)⟩

/-! ### Idempotence of the validation engine (claim C6) -/

theorem filterRows_hasAdjClose (p : Row → Bool) (df : DataFrame) :
    (filterRows p df).hasAdjClose = df.hasAdjClose := rfl

theorem sortByTimestamp_hasAdjClose (df : DataFrame) :
    (sortByTimestamp df).hasAdjClose = df.hasAdjClose := rfl

theorem detect_hasAdjClose (df : DataFrame) :
    (detect_and_flag_anomalies df).hasAdjClose = df.hasAdjClose := by
  unfold detect_and_flag_anomalies
  split
  · rfl
  · dsimp only
    split
    · rfl
    · rfl

/-- Cleaning does not add or remove columns other than `is_anomaly`:
in particular the `adj_close` column presence is preserved, so the
second run applies the same per-column filters. -/
theorem validate_hasAdjClose (df : DataFrame) :
    (validate_and_clean_data df).hasAdjClose = df.hasAdjClose := by
  unfold validate_and_clean_data
  dsimp only
  rw [sortByTimestamp_hasAdjClose, detect_hasAdjClose, filterRows_hasAdjClose,
    filterRows_hasAdjClose]
  by_cases h : df.hasAdjClose = true
  · rw [if_pos h]
    rfl
  · rw [if_neg h]
    rfl

theorem filterRows_eq_self {p : Row → Bool} {df : DataFrame}
    (h : ∀ r ∈ df.rows, p r = true) : filterRows p df = df := by
  unfold filterRows
  rw [List.filter_eq_self.2 (fun r hr => h r hr)]

theorem allMasks_split (hasAdj : Bool) (r : Row) (h : allMasks hasAdj r = true) :
    criticalNonNull r = true ∧ posMask r.open_ = true ∧ posMask r.high = true ∧
      posMask r.low = true ∧ posMask r.close = true ∧
      (hasAdj = true → posMask r.adj_close = true) ∧ volMask r = true ∧
      ohlcMask r = true := by
  unfold allMasks at h
  simp only [Bool.and_eq_true] at h
  obtain ⟨⟨⟨⟨⟨⟨⟨h1, h2⟩, h3⟩, h4⟩, h5⟩, h6⟩, h7⟩, h8⟩ := h
  refine ⟨h1, h2, h3, h4, h5, ?_, h7, h8⟩
  intro hA
  rw [hA] at h6
  simpa using h6

theorem timestamp_stripFlag (r : Row) : (stripFlag r).timestamp = r.timestamp := rfl

/-- Rows whose stripped market data agree pairwise have the same
timestamp column, so sortedness by timestamp transfers along
`detect_and_flag_anomalies`. -/
theorem pairwise_tsLe_of_strip_eq {l₁ l₂ : List Row}
    (h : l₁.map stripFlag = l₂.map stripFlag) (hs : List.Pairwise tsLe l₂) :
    List.Pairwise tsLe l₁ := by
  have hts : l₁.map Row.timestamp = l₂.map Row.timestamp := by
    have h1 : ∀ l : List Row, l.map Row.timestamp = (l.map stripFlag).map Row.timestamp := by
      intro l
      rw [List.map_map]
      rfl
    rw [h1 l₁, h1 l₂, h]
  have hp2 : List.Pairwise (fun a b : Int => a ≤ b) (l₂.map Row.timestamp) :=
    (List.pairwise_map).2 hs
  rw [← hts] at hp2
  exact List.Pairwise.of_map Row.timestamp (fun a b h => h) hp2

/-- Running the cleaning engine on data that already satisfies every
mask and is already sorted leaves the market data of every row, and
the row order, unchanged (only `is_anomaly` may be recomputed). -/
theorem validate_of_clean (d : DataFrame)
    (hmask : ∀ r ∈ d.rows, allMasks d.hasAdjClose r = true)
    (hsorted : List.Pairwise tsLe d.rows) :
    (validate_and_clean_data d).rows.map stripFlag = d.rows.map stripFlag := by
  have hCrit : filterRows criticalNonNull d = d :=
    filterRows_eq_self (fun r hr => (allMasks_split _ r (hmask r hr)).1)
  have hOpen : filterRows (fun r => posMask r.open_) d = d :=
    filterRows_eq_self (fun r hr => (allMasks_split _ r (hmask r hr)).2.1)
  have hHigh : filterRows (fun r => posMask r.high) d = d :=
    filterRows_eq_self (fun r hr => (allMasks_split _ r (hmask r hr)).2.2.1)
  have hLow : filterRows (fun r => posMask r.low) d = d :=
    filterRows_eq_self (fun r hr => (allMasks_split _ r (hmask r hr)).2.2.2.1)
  have hClose : filterRows (fun r => posMask r.close) d = d :=
    filterRows_eq_self (fun r hr => (allMasks_split _ r (hmask r hr)).2.2.2.2.1)
  have hVol : filterRows volMask d = d :=
    filterRows_eq_self (fun r hr => (allMasks_split _ r (hmask r hr)).2.2.2.2.2.2.1)
  have hOhlc : filterRows ohlcMask d = d :=
    filterRows_eq_self (fun r hr => (allMasks_split _ r (hmask r hr)).2.2.2.2.2.2.2)
  have hAdjIte : (if d.hasAdjClose then filterRows (fun r => posMask r.adj_close) d else d)
      = d := by
    by_cases h : d.hasAdjClose = true
    · rw [if_pos h]
      exact filterRows_eq_self
        (fun r hr => (allMasks_split _ r (hmask r hr)).2.2.2.2.2.1 h)
    · rw [if_neg h]
  unfold validate_and_clean_data
  dsimp only
  rw [hCrit, hOpen, hHigh, hLow, hClose, hAdjIte, hVol, hOhlc]
  have hDetSorted : List.Pairwise tsLe (detect_and_flag_anomalies d).rows :=
    pairwise_tsLe_of_strip_eq (detect_strip d) hsorted
  unfold sortByTimestamp
  dsimp only
  rw [List.Sorted.insertionSort_eq hDetSorted]
  exact detect_strip d

/-- C6, corrected form.  Re-running the validation engine on its own
output removes no rows and changes no market-data cell or the row
order: only the `is_anomaly` flags may differ, because the detector
runs before the sort and so recomputes them on the sorted order. -/
theorem validate_idempotent_data (df : DataFrame) :
    (validate_and_clean_data (validate_and_clean_data df)).rows.map stripFlag =
      (validate_and_clean_data df).rows.map stripFlag := by
  apply validate_of_clean
  · intro r hr
    rw [validate_hasAdjClose]
    exact (mem_validate df r hr).1
  · unfold validate_and_clean_data
    dsimp only
    exact List.sorted_insertionSort tsLe _

/-- Ten valid rows with constant close and strictly decreasing
timestamps: the detector of the first run sees them in reverse
order. -/
def revDF : DataFrame :=
  wFrame [wRow 20220110 5, wRow 20220109 5, wRow 20220108 5, wRow 20220107 5,
    wRow 20220106 5, wRow 20220105 5, wRow 20220104 5, wRow 20220103 5,
    wRow 20220102 5, wRow 20220101 5]

/-- C6 counterexample: on a 10-row unsorted frame the first run
computes the anomaly flags before sorting (the null flag lands on the
row that was first pre-sort, i.e. last post-sort), while the second
run recomputes them on the sorted order, so the two outputs differ in
their `is_anomaly` columns and the engine is not idempotent. -/
theorem validate_idempotent_counterexample :
    ((validate_and_clean_data revDF).rows.map Row.is_anomaly).head? = some (some false) ∧
      ((validate_and_clean_data (validate_and_clean_data revDF)).rows.map
        Row.is_anomaly).head? = some none ∧
      validate_and_clean_data (validate_and_clean_data revDF) ≠
        validate_and_clean_data revDF := by
  have h1 : ((validate_and_clean_data revDF).rows.map Row.is_anomaly).head? =
      some (some false) := by
    norm_num [revDF, wFrame, wRow, validate_and_clean_data, filterRows, criticalNonNull,
      posMask, volMask, geMask, ohlcMask, sortByTimestamp, detect_and_flag_anomalies,
      pctChange, pctChangeAux, varOpt, meanOpt, nonNulls, anomalyFlag, setFlag, tsLe,
      List.zip, List.zipWith, List.filterMap, List.sum_cons, List.filter,
      List.insertionSort, List.orderedInsert]
  have h2 : ((validate_and_clean_data (validate_and_clean_data revDF)).rows.map
      Row.is_anomaly).head? = some none := by
    norm_num [revDF, wFrame, wRow, validate_and_clean_data, filterRows, criticalNonNull,
      posMask, volMask, geMask, ohlcMask, sortByTimestamp, detect_and_flag_anomalies,
      pctChange, pctChangeAux, varOpt, meanOpt, nonNulls, anomalyFlag, setFlag, tsLe,
      List.zip, List.zipWith, List.filterMap, List.sum_cons, List.filter,
      List.insertionSort, List.orderedInsert]
  refine ⟨h1, h2, fun he => ?_⟩
  rw [he, h1] at h2
  cases h2

/-! ### Retry/backoff lemmas for the single-symbol fetch (claim C4) -/

theorem fetchFDAux_congr (oracle oracle' : Nat → FetchAttempt) (d : ℚ) :
    ∀ fuel attempt, (∀ i, i < fuel → oracle (attempt + i) = oracle' (attempt + i)) →
      fetchFDAux oracle d attempt fuel = fetchFDAux oracle' d attempt fuel := by
  intro fuel
  induction fuel with
  | zero => intro attempt _; rfl
  | succ f ih =>
    intro attempt h
    have h0 : oracle attempt = oracle' attempt := by
      have := h 0 (by omega)
      rwa [Nat.add_zero] at this
    have hrec := ih (attempt + 1) (fun i hi => by
      have := h (i + 1) (by omega)
      rwa [show attempt + (i + 1) = attempt + 1 + i from by omega] at this)
    unfold fetchFDAux
    rw [h0]
    cases oracle' attempt with
    | raise =>
      dsimp only
      by_cases hf : f = 0
      · simp [hf]
      · simp [hf, hrec]
    | hist t => rfl

theorem fetchFYAux_congr (oracle oracle' : Nat → FetchAttempt) (d : ℚ) :
    ∀ fuel attempt, (∀ i, i < fuel → oracle (attempt + i) = oracle' (attempt + i)) →
      fetchFYAux oracle d attempt fuel = fetchFYAux oracle' d attempt fuel := by
  intro fuel
  induction fuel with
  | zero => intro attempt _; rfl
  | succ f ih =>
    intro attempt h
    have h0 : oracle attempt = oracle' attempt := by
      have := h 0 (by omega)
      rwa [Nat.add_zero] at this
    have hrec := ih (attempt + 1) (fun i hi => by
      have := h (i + 1) (by omega)
      rwa [show attempt + (i + 1) = attempt + 1 + i from by omega] at this)
    unfold fetchFYAux
    rw [h0]
    cases oracle' attempt with
    | raise =>
      dsimp only
      by_cases hf : f = 0
      · simp [hf]
      · simp [hf, hrec]
    | hist t =>
      dsimp only
      by_cases he : t.rows.isEmpty = true
      · by_cases hf : f = 0
        · simp [he, hf]
        · simp [he, hf, hrec]
      · simp [he]

theorem sleeps_range_succ (d : ℚ) (attempt k : ℕ) :
    (List.range (k + 1)).map (fun i => d * 2 ^ (attempt + i)) =
      d * 2 ^ attempt :: (List.range k).map (fun i => d * 2 ^ (attempt + 1 + i)) := by
  rw [List.range_succ_eq_map, List.map_cons, List.map_map, Nat.add_zero]
  refine congrArg _ (List.map_congr_left fun i _ => ?_)
  show d * 2 ^ (attempt + (i + 1)) = d * 2 ^ (attempt + 1 + i)
  rw [show attempt + (i + 1) = attempt + 1 + i from by omega]

theorem fetchFDAux_raise_prefix (oracle : Nat → FetchAttempt) (d : ℚ) (t : DataFrame)
    (ht1 : t.rows.isEmpty = false) (ht2 : missingRequired t = false) :
    ∀ k attempt fuel, (∀ i, i < k → oracle (attempt + i) = FetchAttempt.raise) →
      k < fuel → oracle (attempt + k) = FetchAttempt.hist t →
      fetchFDAux oracle d attempt fuel =
        (some (backfillOptional t), (List.range k).map (fun i => d * 2 ^ (attempt + i))) := by
  intro k
  induction k with
  | zero =>
    intro attempt fuel _ hfuel hk
    cases fuel with
    | zero => omega
    | succ f =>
      rw [Nat.add_zero] at hk
      unfold fetchFDAux
      rw [hk]
      simp [ht1, ht2]
  | succ k ih =>
    intro attempt fuel hpre hfuel hk
    cases fuel with
    | zero => omega
    | succ f =>
      have hf : f ≠ 0 := by omega
      have h0 : oracle attempt = FetchAttempt.raise := by
        have := hpre 0 (by omega)
        rwa [Nat.add_zero] at this
      unfold fetchFDAux
      rw [h0]
      dsimp only
      rw [if_neg hf,
        ih (attempt + 1) f (fun i hi => by
          have := hpre (i + 1) (by omega)
          rwa [show attempt + (i + 1) = attempt + 1 + i from by omega] at this)
          (by omega)
          (by rwa [show attempt + 1 + k = attempt + (k + 1) from by omega]),
        sleeps_range_succ]

theorem fetchFYAux_raise_prefix (oracle : Nat → FetchAttempt) (d : ℚ) (t : DataFrame)
    (ht1 : t.rows.isEmpty = false) (ht2 : missingRequired t = false) :
    ∀ k attempt fuel, (∀ i, i < k → oracle (attempt + i) = FetchAttempt.raise) →
      k < fuel → oracle (attempt + k) = FetchAttempt.hist t →
      fetchFYAux oracle d attempt fuel =
        (some t, (List.range k).map (fun i => d * 2 ^ (attempt + i))) := by
  intro k
  induction k with
  | zero =>
    intro attempt fuel _ hfuel hk
    cases fuel with
    | zero => omega
    | succ f =>
      rw [Nat.add_zero] at hk
      unfold fetchFYAux
      rw [hk]
      simp [ht1, ht2]
  | succ k ih =>
    intro attempt fuel hpre hfuel hk
    cases fuel with
    | zero => omega
    | succ f =>
      have hf : f ≠ 0 := by omega
      have h0 : oracle attempt = FetchAttempt.raise := by
        have := hpre 0 (by omega)
        rwa [Nat.add_zero] at this
      unfold fetchFYAux
      rw [h0]
      dsimp only
      rw [if_neg hf,
        ih (attempt + 1) f (fun i hi => by
          have := hpre (i + 1) (by omega)
          rwa [show attempt + (i + 1) = attempt + 1 + i from by omega] at this)
          (by omega)
          (by rwa [show attempt + 1 + k = attempt + (k + 1) from by omega]),
        sleeps_range_succ]

theorem fetchFYAux_empty_prefix (oracle : Nat → FetchAttempt) (d : ℚ) (t : DataFrame)
    (ht1 : t.rows.isEmpty = false) (ht2 : missingRequired t = false) :
    ∀ k attempt fuel,
      (∀ i, i < k → ∃ e, oracle (attempt + i) = FetchAttempt.hist e ∧ e.rows.isEmpty = true) →
      k < fuel → oracle (attempt + k) = FetchAttempt.hist t →
      fetchFYAux oracle d attempt fuel = (some t, List.replicate k d) := by
  intro k
  induction k with
  | zero =>
    intro attempt fuel _ hfuel hk
    cases fuel with
    | zero => omega
    | succ f =>
      rw [Nat.add_zero] at hk
      unfold fetchFYAux
      rw [hk]
      simp [ht1, ht2]
  | succ k ih =>
    intro attempt fuel hpre hfuel hk
    cases fuel with
    | zero => omega
    | succ f =>
      have hf : f ≠ 0 := by omega
      obtain ⟨e, he, heEmpty⟩ := hpre 0 (by omega)
      rw [Nat.add_zero] at he
      unfold fetchFYAux
      rw [he]
      dsimp only
      rw [if_pos heEmpty, if_neg hf,
        ih (attempt + 1) f (fun i hi => by
          have := hpre (i + 1) (by omega)
          rwa [show attempt + (i + 1) = attempt + 1 + i from by omega] at this)
          (by omega)
          (by rwa [show attempt + 1 + k = attempt + (k + 1) from by omega])]
      rfl

/-- C4, corrected form, for both adapters.  (1)/(2): each adapter
consults at most `max_retries` attempts.  (3): in fetch_data.py a run
of `k` exceptions followed by a good history on attempt `k` returns
the back-filled table after sleeping `delay * 2^0, …, delay * 2^(k-1)`
(so two exception failures with `max_retries = 3` sleep `delay * 1`
then `delay * 2` and return the third attempt's result).  (4)/(5): in
fetch_data.py an empty history or a missing required column aborts at
once with no result, no sleep, and no retry.  (6): the fetch_yahoo.py
adapter retries exceptions with the same exponential backoff and
returns the normalized table un-back-filled.  (7): fetch_yahoo.py
retries an empty history, but with the constant sleep `delay`, not
exponential backoff.  (8): a missing required column aborts
fetch_yahoo.py at once. -/
theorem fetch_retry_behaviour :
    (∀ (oracle oracle' : Nat → FetchAttempt) (d : ℚ) (n : Nat),
      (∀ i, i < n → oracle i = oracle' i) →
      fetchSingleFD oracle n d = fetchSingleFD oracle' n d) ∧
    (∀ (oracle oracle' : Nat → FetchAttempt) (d : ℚ) (n : Nat),
      (∀ i, i < n → oracle i = oracle' i) →
      fetchSingleFY oracle n d = fetchSingleFY oracle' n d) ∧
    (∀ (oracle : Nat → FetchAttempt) (d : ℚ) (n k : Nat) (t : DataFrame),
      (∀ i, i < k → oracle i = FetchAttempt.raise) → k < n →
      oracle k = FetchAttempt.hist t → t.rows.isEmpty = false → missingRequired t = false →
      fetchSingleFD oracle n d =
        (some (backfillOptional t), (List.range k).map (fun i => d * 2 ^ i))) ∧
    (∀ (oracle : Nat → FetchAttempt) (d : ℚ) (n : Nat) (t : DataFrame),
      0 < n → oracle 0 = FetchAttempt.hist t → t.rows.isEmpty = true →
      fetchSingleFD oracle n d = (none, [])) ∧
    (∀ (oracle : Nat → FetchAttempt) (d : ℚ) (n : Nat) (t : DataFrame),
      0 < n → oracle 0 = FetchAttempt.hist t → t.rows.isEmpty = false →
      missingRequired t = true → fetchSingleFD oracle n d = (none, [])) ∧
    (∀ (oracle : Nat → FetchAttempt) (d : ℚ) (n k : Nat) (t : DataFrame),
      (∀ i, i < k → oracle i = FetchAttempt.raise) → k < n →
      oracle k = FetchAttempt.hist t → t.rows.isEmpty = false → missingRequired t = false →
      fetchSingleFY oracle n d = (some t, (List.range k).map (fun i => d * 2 ^ i))) ∧
    (∀ (oracle : Nat → FetchAttempt) (d : ℚ) (n k : Nat) (t : DataFrame),
      (∀ i, i < k → ∃ e, oracle i = FetchAttempt.hist e ∧ e.rows.isEmpty = true) → k < n →
      oracle k = FetchAttempt.hist t → t.rows.isEmpty = false → missingRequired t = false →
      fetchSingleFY oracle n d = (some t, List.replicate k d)) ∧
    (∀ (oracle : Nat → FetchAttempt) (d : ℚ) (n : Nat) (t : DataFrame),
      0 < n → oracle 0 = FetchAttempt.hist t → t.rows.isEmpty = false →
      missingRequired t = true → fetchSingleFY oracle n d = (none, [])) := by
  refine ⟨?_, ?_, ?_, ?_, ?_, ?_, ?_, ?_⟩
  · intro oracle oracle' d n h
    exact fetchFDAux_congr oracle oracle' d n 0 (fun i hi => by simpa using h i hi)
  · intro oracle oracle' d n h
    exact fetchFYAux_congr oracle oracle' d n 0 (fun i hi => by simpa using h i hi)
  · intro oracle d n k t hpre hkn hk ht1 ht2
    have := fetchFDAux_raise_prefix oracle d t ht1 ht2 k 0 n
      (fun i hi => by simpa using hpre i hi) hkn (by simpa using hk)
    simpa using this
  · intro oracle d n t hn h0 hEmpty
    cases n with
    | zero => omega
    | succ m =>
      unfold fetchSingleFD fetchFDAux
      rw [h0]
      simp [hEmpty]
  · intro oracle d n t hn h0 hEmpty hMissing
    cases n with
    | zero => omega
    | succ m =>
      unfold fetchSingleFD fetchFDAux
      rw [h0]
      simp [hEmpty, hMissing]
  · intro oracle d n k t hpre hkn hk ht1 ht2
    have := fetchFYAux_raise_prefix oracle d t ht1 ht2 k 0 n
      (fun i hi => by simpa using hpre i hi) hkn (by simpa using hk)
    simpa using this
  · intro oracle d n k t hpre hkn hk ht1 ht2
    exact fetchFYAux_empty_prefix oracle d t ht1 ht2 k 0 n
      (fun i hi => by simpa using hpre i hi) hkn (by simpa using hk)
  · intro oracle d n t hn h0 hEmpty hMissing
    cases n with
    | zero => omega
    | succ m =>
      unfold fetchSingleFY fetchFYAux
      rw [h0]
      simp [hEmpty, hMissing]

def goodT : DataFrame :=
  wFrame [wRow 20230101 3]

def raiseOracle : Nat → FetchAttempt :=
  fun i => if i < 2 then FetchAttempt.raise else FetchAttempt.hist goodT

theorem fetch_retry_behaviour_witness :
    (∀ i, i < 2 → raiseOracle i = FetchAttempt.raise) ∧
      raiseOracle 2 = FetchAttempt.hist goodT ∧
      fetchSingleFD raiseOracle 3 1 =
        (some (backfillOptional goodT), (List.range 2).map (fun i => (1 : ℚ) * 2 ^ i)) :=
  ⟨by decide, by decide,
    fetch_retry_behaviour.2.2.1 raiseOracle 1 3 2 goodT (by decide) (by decide)
      (by decide) (by decide) (by decide)⟩

def emptyGoodOracle : Nat → FetchAttempt :=
  fun i => if i = 0 then FetchAttempt.hist (wFrame []) else FetchAttempt.hist goodT

def emptyEmptyGoodOracle : Nat → FetchAttempt :=
  fun i => if i < 2 then FetchAttempt.hist (wFrame []) else FetchAttempt.hist goodT

/-- C4 counterexample.  An empty provider result is not retried with
exponential backoff: in fetch_data.py an empty history on attempt 0
(followed by a perfectly good history on attempt 1, `max_retries=3`)
aborts immediately with no result and no sleep, where the claim
demands a sleep of `delay * 2^0` and the successful result; and in
fetch_yahoo.py two empty histories before a good one sleep
`delay, delay`, not `delay * 1, delay * 2`. -/
theorem fetch_retry_counterexample :
    fetchSingleFD emptyGoodOracle 3 1 = (none, []) ∧
      fetchSingleFD emptyGoodOracle 3 1 ≠ (some (backfillOptional goodT), [(1 : ℚ)]) ∧
      fetchSingleFY emptyEmptyGoodOracle 3 1 = (some goodT, [(1 : ℚ), 1]) ∧
      [(1 : ℚ), 1] ≠ [(1 : ℚ), 2] := by
  have h1 : fetchSingleFD emptyGoodOracle 3 1 = (none, []) := rfl
  have h2 : fetchSingleFY emptyEmptyGoodOracle 3 1 = (some goodT, [(1 : ℚ), 1]) := rfl
  refine ⟨h1, ?_, h2, by norm_num⟩
  rw [h1]
  simp

/-! ### Optional-column back-fill (claim C5) -/

theorem backfill_flags (t : DataFrame) :
    (backfillOptional t).hasAdjClose = true ∧ (backfillOptional t).hasDividends = true ∧
      (backfillOptional t).hasStockSplits = true := by
  cases h1 : t.hasAdjClose <;> cases h2 : t.hasDividends <;> cases h3 : t.hasStockSplits <;>
    simp [backfillOptional, h1, h2, h3]

theorem backfill_adj_close (t : DataFrame) (h : t.hasAdjClose = false) :
    (backfillOptional t).rows.map Row.adj_close = t.rows.map Row.close := by
  cases h2 : t.hasDividends <;> cases h3 : t.hasStockSplits <;>
    simp [backfillOptional, h, h2, h3, List.map_map]

theorem backfill_dividends (t : DataFrame) (h : t.hasDividends = false) :
    ∀ r ∈ (backfillOptional t).rows, r.dividends = some 0 := by
  intro r hr
  cases h1 : t.hasAdjClose <;> cases h3 : t.hasStockSplits <;>
    (simp [backfillOptional, h, h1, h3, List.map_map] at hr
     obtain ⟨r0, _, hEq⟩ := hr
     rw [← hEq])

theorem backfill_stock_splits (t : DataFrame) (h : t.hasStockSplits = false) :
    ∀ r ∈ (backfillOptional t).rows, r.stock_splits = some 0 := by
  intro r hr
  cases h1 : t.hasAdjClose <;> cases h2 : t.hasDividends <;>
    (simp [backfillOptional, h, h1, h2, List.map_map] at hr
     obtain ⟨r0, _, hEq⟩ := hr
     rw [← hEq])

/-- C5, corrected form, for the fetch_data.py adapter: a successful
fetch returns the back-filled table, which always carries all three
optional columns; a missing `adj_close` column is filled with the
`close` column cell by cell, and missing `dividends` / `stock_splits`
columns are filled with `0.0`.  (The fetch_yahoo.py adapter performs
no back-fill; see the counterexample.) -/
theorem fetch_backfills_optional (t : DataFrame) (n : Nat) (d : ℚ) (hn : 0 < n)
    (ht1 : t.rows.isEmpty = false) (ht2 : missingRequired t = false)
    (_hlack : t.hasAdjClose = false ∨ t.hasDividends = false ∨ t.hasStockSplits = false) :
    fetchSingleFD (fun _ => FetchAttempt.hist t) n d = (some (backfillOptional t), []) ∧
      (backfillOptional t).hasAdjClose = true ∧
      (backfillOptional t).hasDividends = true ∧
      (backfillOptional t).hasStockSplits = true ∧
      (t.hasAdjClose = false →
        (backfillOptional t).rows.map Row.adj_close = t.rows.map Row.close) ∧
      (t.hasDividends = false → ∀ r ∈ (backfillOptional t).rows, r.dividends = some 0) ∧
      (t.hasStockSplits = false →
        ∀ r ∈ (backfillOptional t).rows, r.stock_splits = some 0) := by
  refine ⟨?_, (backfill_flags t).1, (backfill_flags t).2.1, (backfill_flags t).2.2,
    fun h => backfill_adj_close t h, fun h => backfill_dividends t h,
    fun h => backfill_stock_splits t h⟩
  cases n with
  | zero => omega
  | succ m =>
    unfold fetchSingleFD fetchFDAux
    simp [ht1, ht2]

def bareT : DataFrame :=
  wFrame [wRow 20230101 3, wRow 20230102 4]

theorem fetch_backfills_optional_witness :
    (0 < 3 ∧ bareT.rows.isEmpty = false ∧ missingRequired bareT = false ∧
        bareT.hasAdjClose = false) ∧
      fetchSingleFD (fun _ => FetchAttempt.hist bareT) 3 1 =
          (some (backfillOptional bareT), []) ∧
        (backfillOptional bareT).hasAdjClose = true ∧
        (backfillOptional bareT).hasDividends = true ∧
        (backfillOptional bareT).hasStockSplits = true ∧
        (backfillOptional bareT).rows.map Row.adj_close = bareT.rows.map Row.close :=
  ⟨⟨by decide, by decide, by decide, by decide⟩,
    by
      have h := fetch_backfills_optional bareT 3 1 (by decide) (by decide) (by decide)
        (Or.inl (by decide))
      exact ⟨h.1, h.2.1, h.2.2.1, h.2.2.2.1, h.2.2.2.2.1 (by decide)⟩⟩

/-- C5 counterexample.  The fetch_yahoo.py adapter does not back-fill:
a successful fetch whose normalized table lacks `adj_close`,
`dividends` and `stock_splits` returns that table unchanged, still
lacking all three optional columns. -/
theorem fetch_backfills_optional_counterexample :
    fetchSingleFY (fun _ => FetchAttempt.hist bareT) 3 1 = (some bareT, []) ∧
      bareT.hasAdjClose = false ∧ bareT.hasDividends = false ∧
      bareT.hasStockSplits = false := by
  refine ⟨rfl, rfl, rfl, rfl⟩

/-! ### Storage round-trip (claim C7) -/

/-- Partitioning a list by the distinct values of a key and
concatenating the parts is a permutation of the list. -/
theorem flatten_filter_perm {α β : Type} [DecidableEq β] (key : α → β) :
    ∀ (ks : List β) (l : List α), ks.Nodup → (∀ a ∈ l, key a ∈ ks) →
      ((ks.map (fun y => l.filter (fun a => decide (key a = y)))).flatten).Perm l := by
  intro ks
  induction ks with
  | nil =>
    intro l _ hcov
    cases l with
    | nil => simp
    | cons a l => exact absurd (hcov a (List.mem_cons_self a l)) (List.not_mem_nil _)
  | cons y ys ih =>
    intro l hnd hcov
    have hnd' : ys.Nodup := hnd.of_cons
    have hy : y ∉ ys := by
      intro hmem
      exact (List.nodup_cons.1 hnd).1 hmem
    have hmapEq : ys.map (fun z => l.filter (fun a => decide (key a = z))) =
        ys.map (fun z => (l.filter (fun a => !decide (key a = y))).filter
          (fun a => decide (key a = z))) := by
      refine List.map_congr_left fun z hz => ?_
      rw [List.filter_filter]
      refine (List.filter_congr fun a _ => ?_).symm
      have hzy : ¬z = y := fun hzy => hy (hzy ▸ hz)
      by_cases hk : key a = z
      · simp [hk, hzy]
      · simp [hk]
    have hcov' : ∀ a ∈ l.filter (fun a => !decide (key a = y)), key a ∈ ys := by
      intro a ha
      obtain ⟨haMem, haKey⟩ := List.mem_filter.1 ha
      have := hcov a haMem
      simp only [List.mem_cons] at this
      rcases this with h | h
      · simp [h] at haKey
      · exact h
    have hperm := ih (l.filter (fun a => !decide (key a = y))) hnd' hcov'
    have step1 : ((y :: ys).map (fun z => l.filter (fun a => decide (key a = z)))).flatten
        = l.filter (fun a => decide (key a = y)) ++
            (ys.map (fun z => (l.filter (fun a => !decide (key a = y))).filter
              (fun a => decide (key a = z)))).flatten := by
      rw [List.map_cons, List.flatten_cons, hmapEq]
    rw [step1]
    exact List.Perm.trans (List.Perm.append_left _ hperm) (List.filter_append_perm _ l)

/-- C7 (confirmed).  Saving a series writes one partition per
distinct calendar year (ascending), named `<symbol>_<year>.parquet`,
each holding exactly that year's rows; loading the same files with no
year filter returns (when at least one partition exists, i.e. the
series was nonempty) a permutation of the saved rows — count
preserved — sorted ascending by timestamp. -/
theorem storage_round_trip (df : DataFrame) (symbol : String) :
    (save_data_to_parquet df symbol).length =
        ((df.rows.map (fun r => tsYear r.timestamp)).dedup).length ∧
      (∀ f ∈ save_data_to_parquet df symbol,
        ∃ y ∈ (df.rows.map (fun r => tsYear r.timestamp)).dedup,
          f.1 = symbol ++ "_" ++ toString y ++ ".parquet" ∧
            f.2.rows = df.rows.filter (fun r => decide (tsYear r.timestamp = y))) ∧
      (df.rows ≠ [] →
        ∃ loaded, load_data_from_parquet (save_data_to_parquet df symbol) = some loaded ∧
          loaded.Perm df.rows ∧
          List.Chain' (fun a b : Row => a.timestamp ≤ b.timestamp) loaded) := by
  refine ⟨?_, ?_, ?_⟩
  · unfold save_data_to_parquet
    rw [List.length_map, List.length_insertionSort]
  · intro f hf
    unfold save_data_to_parquet at hf
    obtain ⟨y, hy, hEq⟩ := List.mem_map.1 hf
    rw [List.mem_insertionSort] at hy
    exact ⟨y, hy, by rw [← hEq], by rw [← hEq]⟩
  · intro hne
    have hkeyNe : (df.rows.map (fun r => tsYear r.timestamp)).dedup ≠ [] := by
      rw [Ne, List.dedup_eq_nil, List.map_eq_nil_iff]
      exact hne
    have hfilesNe : save_data_to_parquet df symbol ≠ [] := by
      unfold save_data_to_parquet
      rw [Ne, List.map_eq_nil_iff]
      intro hs
      exact hkeyNe (by
        have := congrArg List.length hs
        rw [List.length_insertionSort] at this
        exact List.length_eq_zero.1 this)
    have hNotEmpty : (save_data_to_parquet df symbol).isEmpty = false := by
      rw [List.isEmpty_eq_false]
      exact hfilesNe
    unfold load_data_from_parquet
    rw [hNotEmpty]
    simp only [Bool.false_eq_true, if_false]
    refine ⟨_, rfl, ?_, ?_⟩
    · have hRowsEq : (save_data_to_parquet df symbol).map (fun f => f.2.rows) =
          (List.insertionSort (· ≤ ·) ((df.rows.map (fun r => tsYear r.timestamp)).dedup)).map
            (fun y => df.rows.filter (fun r => decide (tsYear r.timestamp = y))) := by
        unfold save_data_to_parquet
        rw [List.map_map]
        rfl
      have hsortNodup :
          (List.insertionSort (· ≤ ·)
            ((df.rows.map (fun r => tsYear r.timestamp)).dedup)).Nodup :=
        (List.perm_insertionSort _ _).nodup_iff.2 (List.nodup_dedup _)
      have hsortCov : ∀ r ∈ df.rows, tsYear r.timestamp ∈
          List.insertionSort (· ≤ ·) ((df.rows.map (fun r => tsYear r.timestamp)).dedup) := by
        intro r hr
        rw [List.mem_insertionSort, List.mem_dedup]
        exact List.mem_map_of_mem _ hr
      have hflat := flatten_filter_perm (fun r : Row => tsYear r.timestamp)
        (List.insertionSort (· ≤ ·) ((df.rows.map (fun r => tsYear r.timestamp)).dedup))
        df.rows hsortNodup hsortCov
      rw [hRowsEq]
      exact (List.perm_insertionSort tsLe _).trans hflat
    · exact List.Pairwise.chain' (List.sorted_insertionSort tsLe _)

/-- The spec's round-trip example: two rows dated 2022-12-31 and
2023-01-01 span two calendar years. -/
def twoYearDF : DataFrame :=
  wFrame [wRow 20221231 5, wRow 20230101 6]

theorem storage_round_trip_witness :
    twoYearDF.rows ≠ [] ∧
      (save_data_to_parquet twoYearDF "AAPL").length =
        ((twoYearDF.rows.map (fun r => tsYear r.timestamp)).dedup).length ∧
      ∃ loaded, load_data_from_parquet (save_data_to_parquet twoYearDF "AAPL") =
          some loaded ∧ loaded.Perm twoYearDF.rows ∧
          List.Chain' (fun a b : Row => a.timestamp ≤ b.timestamp) loaded :=
  ⟨by decide, (storage_round_trip twoYearDF "AAPL").1,
    (storage_round_trip twoYearDF "AAPL").2.2 (by decide)⟩

/-! ### Batch fetch loop (claims C8 and C10) -/

theorem map_fst_filterMap (g : String → Option DataFrame) :
    ∀ l : List String,
      (l.filterMap (fun s => (g s).map (fun d => (s, d)))).map Prod.fst =
        l.filter (fun s => (g s).isSome) := by
  intro l
  induction l with
  | nil => rfl
  | cons s l ih =>
    cases hg : g s with
    | none => simp [List.filterMap_cons, List.filter_cons, hg, ih]
    | some d => simp [List.filterMap_cons, List.filter_cons, hg, ih]

/-- C8 (confirmed).  A per-symbol failure (exception, absent result,
empty data, or empty post-cleaning data) never aborts the batch loop:
the returned mapping's keys are exactly the symbols of the batch
whose per-symbol processing succeeded, in order, and each key is
mapped to precisely its per-symbol result. -/
theorem fetch_batch_keys (assetSymbols : List (String × List String))
    (oracle : String → SymbolFetch) (validateData : Bool) :
    (fetch_historical_data assetSymbols oracle validateData).map Prod.fst =
        ((assetSymbols.map Prod.snd).flatten).filter
          (fun s => (symbolResult oracle validateData s).isSome) ∧
      ∀ p ∈ fetch_historical_data assetSymbols oracle validateData,
        symbolResult oracle validateData p.1 = some p.2 := by
  constructor
  · exact map_fst_filterMap _ _
  · intro p hp
    unfold fetch_historical_data at hp
    obtain ⟨s, _, hEq⟩ := List.mem_filterMap.1 hp
    rw [Option.map_eq_some'] at hEq
    obtain ⟨d, hd, hpd⟩ := hEq
    rw [← hpd]
    exact hd

/-- C10 (confirmed).  Every table in the mapping returned by the
batch fetch is nonempty: a symbol with no rows, or all of whose rows
are removed by cleaning, is omitted entirely. -/
theorem fetch_results_nonempty (assetSymbols : List (String × List String))
    (oracle : String → SymbolFetch) (validateData : Bool) :
    ∀ p ∈ fetch_historical_data assetSymbols oracle validateData, p.2.rows ≠ [] := by
  intro p hp
  unfold fetch_historical_data at hp
  obtain ⟨s, _, hEq⟩ := List.mem_filterMap.1 hp
  rw [Option.map_eq_some'] at hEq
  obtain ⟨d, hd, hpd⟩ := hEq
  unfold symbolResult at hd
  cases ho : oracle s with
  | raises => rw [ho] at hd; cases hd
  | result od =>
    rw [ho] at hd
    cases od with
    | none => cases hd
    | some d0 =>
      dsimp only at hd
      by_cases h1 : d0.rows.isEmpty = true
      · rw [if_pos h1] at hd; cases hd
      · rw [if_neg h1] at hd
        by_cases h2 : ((if validateData then validate_and_clean_data d0 else d0)).rows.isEmpty
          = true
        · rw [if_pos h2] at hd; cases hd
        · rw [if_neg h2] at hd
          have hd' := Option.some.inj hd
          rw [← hpd]
          dsimp only
          rw [← hd']
          intro hNil
          exact h2 (by rw [hNil]; rfl)

def batchOracle : String → SymbolFetch := fun s =>
  if s = "BAD" then SymbolFetch.result none
  else if s = "AAPL" then SymbolFetch.result (some goodT)
  else SymbolFetch.result (some bareT)

def batchSymbols : List (String × List String) :=
  [("stocks", ["BAD", "AAPL", "MSFT"])]

theorem fetch_batch_keys_witness :
    (fetch_historical_data batchSymbols batchOracle false).map Prod.fst =
        ["AAPL", "MSFT"] ∧
      ("AAPL", goodT) ∈ fetch_historical_data batchSymbols batchOracle false ∧
      symbolResult batchOracle false "AAPL" = some goodT :=
  ⟨by
      rw [(fetch_batch_keys batchSymbols batchOracle false).1]
      decide,
    by decide,
    (fetch_batch_keys batchSymbols batchOracle false).2 ("AAPL", goodT) (by decide)⟩

def soloSymbols : List (String × List String) :=
  [("crypto", ["XRP-USD"])]

def soloOracle : String → SymbolFetch := fun _ => SymbolFetch.result (some bareT)

theorem fetch_results_nonempty_witness :
    ("XRP-USD", bareT) ∈ fetch_historical_data soloSymbols soloOracle false ∧
      bareT.rows ≠ [] :=
  ⟨by decide,
    fetch_results_nonempty soloSymbols soloOracle false ("XRP-USD", bareT) (by decide)⟩

end StockPipeline
